import Mathlib

/-!
Framing codecs and reader loop of the `stream` package.

A shallow embedding of `header.go` (the two `StreamHeaderCodec` implementations,
`MarkerLengthCodec` and `LengthFieldCodec`) and of the reader loop of
`socket.go`, followed by theorems about them.

Modelling conventions.

* A Go `[]byte` is a `List Nat` whose elements are byte values (below 256); the
  slice's capacity is taken equal to its length.
* Go's fixed-width conversions `uint8(x)`, `uint16(x)` are explicit reductions
  modulo `2^8`, `2^16`; Go `int` values that are lengths or indices are `Nat`.
* A Go run has one of three outcomes: it returns, it stops with a run-time
  panic (index or slice bounds out of range), or the loop budget of the model
  is used up.
-/

namespace Stream

/-! ## Go primitives -/

/-- Conversion `uint8(x)` of a non-negative integer. -/
def uint8 (x : Nat) : Nat := x % 256

/-- Conversion `uint16(x)` of a non-negative integer; also the wrap-around of
`uint16` addition. -/
def uint16 (x : Nat) : Nat := x % 65536

/-- Index expression `s[i]`: `none` stands for the run-time panic raised when
`i` is not below `len(s)`. -/
def index (s : List Nat) (i : Nat) : Option Nat := s[i]?

/-- Slice expression `s[lo:hi]`: Go requires `lo <= hi <= cap(s)` and panics
otherwise (`none`). The capacity is taken equal to `len(s)`, so the model
panics where Go, given a slice with spare capacity (the reader's
`buffer[:l]`), would return bytes past `len(s)`; wherever the model returns,
Go returns the same. -/
def slice (s : List Nat) (lo hi : Nat) : Option (List Nat) :=
  if lo ≤ hi ∧ hi ≤ s.length then some ((s.drop lo).take (hi - lo)) else none

/-- Outcome of running a `Decode` method. -/
inductive Outcome where
  /-- The call returned `(packets, err)`; `err = none` is Go's `nil` error. -/
  | ret (packets : List (List Nat)) (err : Option String)
  /-- The call stopped with a run-time panic. -/
  | panic
  /-- The loop budget of the model ran out before the loop finished. -/
  | timeout
  deriving DecidableEq, Repr

/-! ## `MarkerLengthCodec` -/

/-- The package variable `var MARKER = []byte{0xff, 0xff}`. -/
def MARKER : List Nat := [0xff, 0xff]

/-- The library call `binary.LittleEndian.Uint16(b)`: `uint16(b[0]) | uint16(b[1])<<8`, after the
bounds check `_ = b[1]`. -/
def littleEndianUint16 (b : List Nat) : Option Nat :=
  match b with
  | b0 :: b1 :: _ => some (uint16 b0 ||| uint16 (uint16 b1 <<< 8))
  | _ => none

/-- The library call `binary.LittleEndian.PutUint16(b, v)` on a fresh 2-byte slice:
`b[0] = byte(v); b[1] = byte(v >> 8)`. -/
def littleEndianPutUint16 (v : Nat) : List Nat :=
  [uint8 v, uint8 (v >>> 8)]

/-- The inner loop `for i := 0; i < len(MARKER); i++` of
`MarkerLengthCodec.Decode`, started at `i` with `marker` the part of `MARKER`
still to compare: `some true` when every byte matches, `some false` at the
first mismatch (where `Decode` returns the error), `none` when
`bytes[idx+uint16(i)]` is out of range. -/
def MarkerLengthCodec.markerLoop (bytes : List Nat) (idx : Nat) :
    Nat → List Nat → Option Bool
  | _, [] => some true
  | i, m :: ms =>
    match index bytes (uint16 (idx + uint16 i)) with
    | none => none
    | some b => if b ≠ m then some false else markerLoop bytes idx (i + 1) ms

/-- Result of one pass through a loop body: the function is done with an
outcome, or the loop goes on with a new index and packet list. -/
inductive LoopStep where
  | done (o : Outcome)
  | next (idx : Nat) (packets : List (List Nat))
  deriving DecidableEq, Repr

/-- One pass of the outer loop `for idx < uint16(len(bytes))` of
`MarkerLengthCodec.Decode`: the loop test and the body, with `idx` a `uint16`
and `packets` the slice built so far. -/
def MarkerLengthCodec.decodeIter (bytes : List Nat) (idx : Nat)
    (packets : List (List Nat)) : LoopStep :=
  if idx < uint16 bytes.length then
    match MarkerLengthCodec.markerLoop bytes idx 0 MARKER with
    | none => LoopStep.done Outcome.panic
    | some false => LoopStep.done (Outcome.ret packets (some "Malformed packet"))
    | some true =>
      let idx1 := uint16 (idx + 2)
      match slice bytes idx1 (uint16 (idx1 + 2)) with
      | none => LoopStep.done Outcome.panic
      | some lenBytes =>
        match littleEndianUint16 lenBytes with
        | none => LoopStep.done Outcome.panic
        | some length =>
          let idx2 := uint16 (idx1 + 2)
          match slice bytes idx2 (uint16 (idx2 + length)) with
          | none => LoopStep.done Outcome.panic
          | some data => LoopStep.next (uint16 (idx2 + length)) (packets ++ [data])
  else LoopStep.done (Outcome.ret packets none)

/-- The outer loop of `MarkerLengthCodec.Decode`. The first argument bounds the
number of iterations run. -/
def MarkerLengthCodec.decodeLoop :
    Nat → List Nat → Nat → List (List Nat) → Outcome
  | 0, _, _, _ => Outcome.timeout
  | fuel + 1, bytes, idx, packets =>
    match MarkerLengthCodec.decodeIter bytes idx packets with
    | LoopStep.done o => o
    | LoopStep.next idx1 packets1 => MarkerLengthCodec.decodeLoop fuel bytes idx1 packets1

/-- The index with which the loop of `MarkerLengthCodec.Decode` goes on after a
pass started at `idx`, if it goes on. -/
def MarkerLengthCodec.nextIdx (bytes : List Nat) (idx : Nat) : Option Nat :=
  match MarkerLengthCodec.decodeIter bytes idx [] with
  | LoopStep.done _ => none
  | LoopStep.next idx1 _ => some idx1

/-- The index reached after `k` passes of the loop started at `idx`, if the
loop goes on that long. -/
def MarkerLengthCodec.idxAfter (bytes : List Nat) : Nat → Nat → Option Nat
  | 0, idx => some idx
  | k + 1, idx =>
    match MarkerLengthCodec.nextIdx bytes idx with
    | none => none
    | some idx1 => MarkerLengthCodec.idxAfter bytes k idx1

/-- The method `MarkerLengthCodec.Decode`. Which branch a pass takes depends on
the 16-bit `idx` alone, so a run that has not finished after `65536` passes has
come back to an index and never finishes; the budget `65537` therefore loses no
finishing run (`MarkerLengthCodec.Decode_timeout_forever`). -/
def MarkerLengthCodec.Decode (bytes : List Nat) : Outcome :=
  MarkerLengthCodec.decodeLoop 65537 bytes 0 []

/-- The method `MarkerLengthCodec.Encode`: the marker, the little-endian
`uint16(len(pkt))`, then the packet. -/
def MarkerLengthCodec.Encode (pkt : List Nat) : List Nat :=
  MARKER ++ littleEndianPutUint16 (uint16 pkt.length) ++ pkt

/-! ## `LengthFieldCodec` -/

/-- The function `getHeaderFromLen(length)` for a non-negative `length`. -/
def getHeaderFromLen (length : Nat) : List Nat :=
  if length ≤ 63 then
    [0x3f &&& uint8 length]
  else if length ≤ 16383 then
    [64 ||| uint8 (63 &&& (length >>> 8)), uint8 (255 &&& length)]
  else
    [128 ||| uint8 (63 &&& (length >>> 16)), uint8 (255 &&& (length >>> 8)),
      uint8 (255 &&& length)]

/-- The function `getLenFromHeader(data)`: the switch on the top two bits of `data[0]`;
`none` when a byte it reads is out of range. With top bits `11` no case fires
and `len` keeps its zero value. -/
def getLenFromHeader (data : List Nat) : Option Nat :=
  match index data 0 with
  | none => none
  | some d0 =>
    let header := (d0 &&& 0xc0) >>> 6
    if header = 0 then
      some (d0 &&& 0x3f)
    else if header = 1 then
      match index data 1 with
      | none => none
      | some d1 => some (((d0 &&& 63) <<< 8) ||| (255 &&& d1))
    else if header = 2 then
      match index data 1, index data 2 with
      | some d1, some d2 => some (((d0 &&& 63) <<< 16) + (d1 <<< 8) + (255 &&& d2))
      | _, _ => none
    else
      some 0

/-- The loop `for idx < len(bytes)` of `LengthFieldCodec.Decode`. The first
argument bounds the number of iterations run. -/
def LengthFieldCodec.decodeLoop :
    Nat → List Nat → Nat → List (List Nat) → Outcome
  | 0, _, _, _ => Outcome.timeout
  | fuel + 1, bytes, idx, packets =>
    if idx < bytes.length then
      match getLenFromHeader (bytes.drop idx) with
      | none => Outcome.panic
      | some len =>
        let pad := if len ≤ 63 then idx + 1 else if len ≤ 16383 then idx + 2 else idx + 3
        match slice bytes pad (pad + len) with
        | none => Outcome.panic
        | some data =>
          LengthFieldCodec.decodeLoop fuel bytes (pad + len) (packets ++ [data])
    else Outcome.ret packets none

/-- The method `LengthFieldCodec.Decode`. Every iteration moves `idx` forward by at least
one, so `len(bytes) + 1` iterations always suffice. -/
def LengthFieldCodec.Decode (bytes : List Nat) : Outcome :=
  LengthFieldCodec.decodeLoop (bytes.length + 1) bytes 0 []

/-- The method `LengthFieldCodec.Encode`: the header of `len(pkt)`, then the packet. -/
def LengthFieldCodec.Encode (pkt : List Nat) : List Nat :=
  getHeaderFromLen pkt.length ++ pkt

/-! ## `socketStream`: state, `IsConnected` and the reader loop -/

/-- Error context `STREAM_EOF` (`iota` value 0). -/
def STREAM_EOF : Nat := 0
/-- Error context `STREAM_HANDLER`. -/
def STREAM_HANDLER : Nat := 1
/-- Error context `STREAM_MARSHALLING`. -/
def STREAM_MARSHALLING : Nat := 2
/-- Error context `STREAM_WRITE`. -/
def STREAM_WRITE : Nat := 3
/-- Error context `STREAM_READ`. -/
def STREAM_READ : Nat := 4

/-- The type `StreamError`: the message of the wrapped error and its context (the Go
field `Type`). -/
structure StreamError where
  Error : String
  errType : Nat
  deriving DecidableEq, Repr

/-- The constructor `NewStreamErr(errType, errStr)`. -/
def NewStreamErr (errType : Nat) (errStr : String) : StreamError :=
  StreamError.mk errStr errType

/-- The `StreamHeaderCodec` values of the package. -/
inductive HeaderCodec where
  | markerLength
  | lengthField
  deriving DecidableEq, Repr

/-- Dispatch of `headerCodec.Decode`. -/
def HeaderCodec.Decode : HeaderCodec → List Nat → Outcome
  | HeaderCodec.markerLength, data => MarkerLengthCodec.Decode data
  | HeaderCodec.lengthField, data => LengthFieldCodec.Decode data

/-- The fields of `socketStream` the reader loop touches, with the calls it
makes on its collaborators recorded in order: `errors` are the arguments of
`errorHandler`, `handled` those of `handler`, `closeCalls` counts
`conn.Close()`. `conn = none` is the `nil` connection; `handler = false` is the
`nil` handler. -/
structure socketStream where
  conn : Option Nat
  handler : Bool
  headerCodec : HeaderCodec
  readBytes : Nat
  errors : List StreamError
  handled : List (List Nat)
  closeCalls : Nat
  deriving DecidableEq, Repr

/-- The method `IsConnected`: `c.conn != nil`. -/
def socketStream.IsConnected (c : socketStream) : Bool := c.conn.isSome

/-- A call `c.errorHandler(e)`. -/
def socketStream.report (c : socketStream) (e : StreamError) : socketStream :=
  { c with errors := c.errors ++ [e] }

/-- What one pass of the `select` of `read` meets: a value ready on `readCtl`,
or (the `default` branch) the result `(l, err)` of `conn.Read(buffer)` with
`data = buffer[:l]`. -/
inductive ReadEvent where
  | stop
  | read (data : List Nat) (err : Option String)
  deriving DecidableEq, Repr

/-- Where the reader goroutine stands. -/
inductive LoopStatus where
  /-- Still in the `for` loop. -/
  | running
  /-- The function `read` has returned. -/
  | exited
  /-- The goroutine panicked (a `nil` connection was used, or `Decode`
  panicked). -/
  | panicked
  /-- The call of `Decode` does not return. -/
  | hung
  deriving DecidableEq, Repr

/-- One pass through the body of the `for` loop of `read`. -/
def socketStream.readIter (c : socketStream) : ReadEvent → socketStream × LoopStatus
  | ReadEvent.stop =>
    match c.conn with
    | none => (c, LoopStatus.panicked)
    | some _ => ({ c with closeCalls := c.closeCalls + 1, conn := none }, LoopStatus.exited)
  | ReadEvent.read data err =>
    match c.conn with
    | none => (c, LoopStatus.panicked)
    | some _ =>
      let c1 := { c with readBytes := c.readBytes + data.length }
      match err with
      | some e =>
        if e ≠ "EOF" then
          (c1.report (NewStreamErr STREAM_READ ("Connection read error: " ++ e)),
            LoopStatus.exited)
        else
          (c1.report (NewStreamErr STREAM_EOF ("Connection EOF: " ++ e)), LoopStatus.exited)
      | none =>
        match c1.headerCodec.Decode data with
        | Outcome.panic => (c1, LoopStatus.panicked)
        | Outcome.timeout => (c1, LoopStatus.hung)
        | Outcome.ret pkts derr =>
          let c2 := match derr with
            | some e => c1.report (NewStreamErr STREAM_MARSHALLING ("Packet marshalling: " ++ e))
            | none => c1
          if c2.handler = false then
            (c2.report (NewStreamErr STREAM_HANDLER "No handler set for inbound data"),
              LoopStatus.running)
          else
            ({ c2 with handled := c2.handled ++ pkts }, LoopStatus.running)

/-- The `for` loop of `read`, run against the events it meets; it is still
`running` when the events given are used up. -/
def socketStream.readLoop : socketStream → List ReadEvent → socketStream × LoopStatus
  | c, [] => (c, LoopStatus.running)
  | c, ev :: evs =>
    match c.readIter ev with
    | (c1, LoopStatus.running) => socketStream.readLoop c1 evs
    | r => r

/-- The method `read`: the two start-up checks, then the loop. -/
def socketStream.read (c : socketStream) (events : List ReadEvent) :
    socketStream × LoopStatus :=
  if c.conn = none then
    (c.report (NewStreamErr STREAM_WRITE "Connection is nil"), LoopStatus.exited)
  else if c.handler = false then
    (c.report (NewStreamErr STREAM_HANDLER "No handler set for inbound data"),
      LoopStatus.exited)
  else
    c.readLoop events

/-- Concatenation of the frames `Encode(p1) ++ ... ++ Encode(pn)`. -/
def frames (encode : List Nat → List Nat) : List (List Nat) → List Nat
  | [] => []
  | p :: ps => encode p ++ frames encode ps

/-! ## Bit-level facts used by the length header -/

theorem and_255 (x : Nat) : 255 &&& x = x % 256 := by
  rw [Nat.and_comm]; exact Nat.and_pow_two_sub_one_eq_mod x 8

theorem and_63 (x : Nat) : 63 &&& x = x % 64 := by
  rw [Nat.and_comm]; exact Nat.and_pow_two_sub_one_eq_mod x 6

theorem and_63_right (x : Nat) : x &&& 63 = x % 64 :=
  Nat.and_pow_two_sub_one_eq_mod x 6

theorem shl8_or (a b : Nat) (hb : b < 256) : (a <<< 8) ||| b = a * 256 + b := by
  rw [Nat.shiftLeft_eq, Nat.mul_comm]
  exact (Nat.mul_add_lt_is_or (i := 8) hb a).symm

theorem header_byte_00 : ∀ y, y < 64 →
    ((0x3f &&& y) &&& 0xc0) >>> 6 = 0 ∧ (0x3f &&& y) &&& 0x3f = y := by
  decide

theorem header_byte_01 : ∀ y, y < 64 →
    ((64 ||| y) &&& 0xc0) >>> 6 = 1 ∧ (64 ||| y) &&& 63 = y := by
  decide

theorem header_byte_10 : ∀ y, y < 64 →
    ((128 ||| y) &&& 0xc0) >>> 6 = 2 ∧ (128 ||| y) &&& 63 = y := by
  decide

/-! ## Header width and header round trip of `LengthFieldCodec` -/

theorem getHeaderFromLen_length (L : Nat) :
    (getHeaderFromLen L).length =
      if L ≤ 63 then 1 else if L ≤ 16383 then 2 else 3 := by
  unfold getHeaderFromLen
  split_ifs <;> rfl

theorem getLenFromHeader_top00 (d0 : Nat) (rest : List Nat)
    (h : (d0 &&& 0xc0) >>> 6 = 0) :
    getLenFromHeader (d0 :: rest) = some (d0 &&& 0x3f) := by
  simp [getLenFromHeader, index, h]

theorem getLenFromHeader_top01 (d0 d1 : Nat) (rest : List Nat)
    (h : (d0 &&& 0xc0) >>> 6 = 1) :
    getLenFromHeader (d0 :: d1 :: rest) = some (((d0 &&& 63) <<< 8) ||| (255 &&& d1)) := by
  simp [getLenFromHeader, index, h]

theorem getLenFromHeader_top10 (d0 d1 d2 : Nat) (rest : List Nat)
    (h : (d0 &&& 0xc0) >>> 6 = 2) :
    getLenFromHeader (d0 :: d1 :: d2 :: rest) =
      some (((d0 &&& 63) <<< 16) + (d1 <<< 8) + (255 &&& d2)) := by
  simp [getLenFromHeader, index, h]

theorem getLenFromHeader_header_append (L : Nat) (h : L ≤ 4194303) (rest : List Nat) :
    getLenFromHeader (getHeaderFromLen L ++ rest) = some L := by
  unfold getHeaderFromLen
  by_cases h1 : L ≤ 63
  · have hL : uint8 L = L := by unfold uint8; omega
    obtain ⟨a, b⟩ := header_byte_00 L (by omega)
    rw [if_pos h1, hL, List.singleton_append, getLenFromHeader_top00 _ _ a, b]
  · by_cases h2 : L ≤ 16383
    · have hy : uint8 (63 &&& (L >>> 8)) = L / 256 := by
        rw [and_63, Nat.shiftRight_eq_div_pow]; unfold uint8; omega
      have hz : uint8 (255 &&& L) = L % 256 := by
        rw [and_255]; unfold uint8; omega
      obtain ⟨a, b⟩ := header_byte_01 (L / 256) (by omega)
      rw [if_neg h1, if_pos h2, hy, hz, List.cons_append, List.cons_append,
        getLenFromHeader_top01 _ _ _ a, b, and_255, shl8_or _ _ (by omega)]
      congr 1; omega
    · have hy : uint8 (63 &&& (L >>> 16)) = L / 65536 := by
        rw [and_63, Nat.shiftRight_eq_div_pow]; unfold uint8; omega
      have hm : uint8 (255 &&& (L >>> 8)) = L / 256 % 256 := by
        rw [and_255, Nat.shiftRight_eq_div_pow]; unfold uint8; omega
      have hz : uint8 (255 &&& L) = L % 256 := by
        rw [and_255]; unfold uint8; omega
      obtain ⟨a, b⟩ := header_byte_10 (L / 65536) (by omega)
      rw [if_neg h1, if_neg h2, hy, hm, hz, List.cons_append, List.cons_append,
        List.cons_append, getLenFromHeader_top10 _ _ _ _ a, b, and_255,
        Nat.shiftLeft_eq, Nat.shiftLeft_eq]
      congr 1; omega

/-! ## The decoding loop of `LengthFieldCodec` on encoded frames -/

theorem slice_middle (pre p rest : List Nat) (h : List Nat) :
    slice (pre ++ (h ++ p ++ rest)) (pre.length + h.length)
      (pre.length + h.length + p.length) = some p := by
  unfold slice
  have hlen : pre.length + h.length + p.length ≤ (pre ++ (h ++ p ++ rest)).length := by
    simp only [List.length_append]; omega
  rw [if_pos ⟨by omega, hlen⟩]
  have hd : (pre ++ (h ++ p ++ rest)).drop (pre.length + h.length) = p ++ rest := by
    rw [show pre ++ (h ++ p ++ rest) = (pre ++ h) ++ (p ++ rest) by simp,
      ← List.length_append, List.drop_left]
  rw [hd, show pre.length + h.length + p.length - (pre.length + h.length) = p.length by omega,
    List.take_left]

theorem LengthFieldCodec.decodeLoop_lengthFrame (fuel : Nat) (pre p rest : List Nat)
    (acc : List (List Nat)) (hp : p.length ≤ 4194303) :
    LengthFieldCodec.decodeLoop (fuel + 1) (pre ++ (LengthFieldCodec.Encode p ++ rest))
        pre.length acc =
      LengthFieldCodec.decodeLoop fuel (pre ++ (LengthFieldCodec.Encode p ++ rest))
        (pre.length + (LengthFieldCodec.Encode p).length) (acc ++ [p]) := by
  have hw := getHeaderFromLen_length p.length
  have hpos : 0 < (getHeaderFromLen p.length).length := by rw [hw]; split_ifs <;> omega
  have hlt : pre.length < (pre ++ (LengthFieldCodec.Encode p ++ rest)).length := by
    simp only [LengthFieldCodec.Encode, List.length_append]; omega
  have hdrop : (pre ++ (LengthFieldCodec.Encode p ++ rest)).drop pre.length =
      getHeaderFromLen p.length ++ (p ++ rest) := by
    rw [List.drop_left]; simp [LengthFieldCodec.Encode]
  have hpad : (if p.length ≤ 63 then pre.length + 1
      else if p.length ≤ 16383 then pre.length + 2 else pre.length + 3) =
      pre.length + (getHeaderFromLen p.length).length := by
    rw [hw]; split_ifs <;> rfl
  rw [LengthFieldCodec.decodeLoop, if_pos hlt, hdrop,
    getLenFromHeader_header_append _ hp]
  simp only [hpad]
  have hs := slice_middle pre p rest (getHeaderFromLen p.length)
  unfold LengthFieldCodec.Encode
  rw [hs]
  simp only [List.length_append, Nat.add_assoc]

theorem LengthFieldCodec.decodeLoop_lengthFrames (ps : List (List Nat))
    (hps : ∀ p ∈ ps, p.length ≤ 4194303) (fuel : Nat) (rest : List Nat) :
    ∀ (pre : List Nat) (acc : List (List Nat)),
      LengthFieldCodec.decodeLoop (ps.length + fuel)
          (pre ++ (frames LengthFieldCodec.Encode ps ++ rest)) pre.length acc =
        LengthFieldCodec.decodeLoop fuel
          (pre ++ (frames LengthFieldCodec.Encode ps ++ rest))
          (pre.length + (frames LengthFieldCodec.Encode ps).length) (acc ++ ps) := by
  induction ps with
  | nil => intro pre acc; simp [frames]
  | cons p ps ih =>
    intro pre acc
    have hp : p.length ≤ 4194303 := hps p (List.mem_cons_self _ _)
    have hps1 : ∀ q ∈ ps, q.length ≤ 4194303 := fun q hq => hps q (List.mem_cons_of_mem _ hq)
    have e1 : pre ++ (frames LengthFieldCodec.Encode (p :: ps) ++ rest) =
        pre ++ (LengthFieldCodec.Encode p ++ (frames LengthFieldCodec.Encode ps ++ rest)) := by
      simp [frames]
    have e2 : pre ++ (LengthFieldCodec.Encode p ++ (frames LengthFieldCodec.Encode ps ++ rest)) =
        (pre ++ LengthFieldCodec.Encode p) ++ (frames LengthFieldCodec.Encode ps ++ rest) := by
      simp
    rw [e1, show (p :: ps).length + fuel = (ps.length + fuel) + 1 by simp; omega,
      LengthFieldCodec.decodeLoop_lengthFrame _ _ _ _ _ hp, e2, ← List.length_append,
      ih hps1 (pre ++ LengthFieldCodec.Encode p) (acc ++ [p])]
    simp [frames, Nat.add_assoc]

theorem LengthFieldCodec.length_le_frames (ps : List (List Nat)) :
    ps.length ≤ (frames LengthFieldCodec.Encode ps).length := by
  induction ps with
  | nil => simp [frames]
  | cons p ps ih =>
    have hw := getHeaderFromLen_length p.length
    have hpos : 0 < (getHeaderFromLen p.length).length := by rw [hw]; split_ifs <;> omega
    simp only [frames, LengthFieldCodec.Encode, List.length_append, List.length_cons]
    omega

theorem LengthFieldCodec.Decode_frames (ps : List (List Nat))
    (hps : ∀ p ∈ ps, p.length ≤ 4194303) :
    LengthFieldCodec.Decode (frames LengthFieldCodec.Encode ps) = Outcome.ret ps none := by
  have hle := LengthFieldCodec.length_le_frames ps
  have h := LengthFieldCodec.decodeLoop_lengthFrames ps hps
    ((frames LengthFieldCodec.Encode ps).length - ps.length + 1) [] [] []
  simp only [List.append_nil, List.nil_append, List.length_nil, Nat.zero_add] at h
  unfold LengthFieldCodec.Decode
  rw [show (frames LengthFieldCodec.Encode ps).length + 1 =
    ps.length + ((frames LengthFieldCodec.Encode ps).length - ps.length + 1) by omega, h,
    LengthFieldCodec.decodeLoop, if_neg (Nat.lt_irrefl _)]

theorem slice_some_le (s : List Nat) (lo hi : Nat) (d : List Nat)
    (h : slice s lo hi = some d) : lo ≤ hi ∧ hi ≤ s.length := by
  unfold slice at h
  split_ifs at h with hc
  exact hc

/-- The loop budget of `LengthFieldCodec.Decode` is never used up: every
iteration that goes on moves `idx` forward and keeps it within the buffer. -/
theorem LengthFieldCodec.decodeLoop_ne_timeout (bytes : List Nat) :
    ∀ (fuel idx : Nat) (acc : List (List Nat)),
      idx ≤ bytes.length → bytes.length < idx + fuel →
      LengthFieldCodec.decodeLoop fuel bytes idx acc ≠ Outcome.timeout := by
  intro fuel
  induction fuel with
  | zero => intro idx acc h1 h2; omega
  | succ n ih =>
    intro idx acc h1 h2
    rw [LengthFieldCodec.decodeLoop]
    split_ifs with hlt
    · split
      · simp
      · rename_i len _
        have hpad : idx + 1 ≤
            (if len ≤ 63 then idx + 1 else if len ≤ 16383 then idx + 2 else idx + 3) := by
          split_ifs <;> omega
        revert hpad
        generalize (if len ≤ 63 then idx + 1 else if len ≤ 16383 then idx + 2 else idx + 3) = pad
        intro hpad
        simp only
        split
        · simp
        · rename_i data hs
          have hb := slice_some_le _ _ _ _ hs
          exact ih _ _ hb.2 (by omega)
    · simp

/-- The method `LengthFieldCodec.Decode` always returns or panics within its
loop budget. -/
theorem LengthFieldCodec.Decode_ne_timeout (bytes : List Nat) :
    LengthFieldCodec.Decode bytes ≠ Outcome.timeout :=
  LengthFieldCodec.decodeLoop_ne_timeout bytes _ 0 [] (Nat.zero_le _) (by omega)

/-! ## The decoding loop of `MarkerLengthCodec` on encoded frames -/

theorem uint16_of_le (x : Nat) (h : x ≤ 65535) : uint16 x = x := by
  unfold uint16; omega

theorem MarkerLengthCodec.Encode_eq (p : List Nat) (h : p.length ≤ 65535) :
    MarkerLengthCodec.Encode p = [255, 255, p.length % 256, p.length / 256] ++ p := by
  simp only [MarkerLengthCodec.Encode, MARKER, littleEndianPutUint16, uint16_of_le _ h,
    uint8, Nat.shiftRight_eq_div_pow]
  have : p.length / 2 ^ 8 % 256 = p.length / 256 := by omega
  simp [this]
  omega

theorem littleEndianUint16_bytes (v : Nat) (h : v ≤ 65535) :
    littleEndianUint16 [v % 256, v / 256] = some v := by
  have h1 : uint16 (v % 256) = v % 256 := uint16_of_le _ (by omega)
  have h2 : uint16 (v / 256) = v / 256 := uint16_of_le _ (by omega)
  have h3 : uint16 ((v / 256) <<< 8) = 2 ^ 8 * (v / 256) := by
    rw [Nat.shiftLeft_eq]; unfold uint16; omega
  have hlt : v % 256 < 2 ^ 8 := by omega
  simp only [littleEndianUint16, h1, h2, h3]
  rw [Nat.or_comm, ← Nat.mul_add_lt_is_or hlt (v / 256)]
  congr 1; omega

theorem getElem?_after (pre l : List Nat) (i : Nat) :
    (pre ++ l)[pre.length + i]? = l[i]? := by
  rw [List.getElem?_append_right (by omega)]
  congr 1; omega

theorem MarkerLengthCodec.markerLoop_match (bytes : List Nat) (idx : Nat)
    (hidx : idx + 1 ≤ 65535) (h0 : bytes[idx]? = some 255) (h1 : bytes[idx + 1]? = some 255) :
    MarkerLengthCodec.markerLoop bytes idx 0 MARKER = some true := by
  have e0 : uint16 (idx + uint16 0) = idx := by unfold uint16; omega
  have e1 : uint16 (idx + uint16 (0 + 1)) = idx + 1 := by unfold uint16; omega
  simp [MARKER, MarkerLengthCodec.markerLoop, index, e0, e1, h0, h1]

theorem MarkerLengthCodec.markerLoop_mismatch (bytes : List Nat) (idx b0 b1 : Nat)
    (hidx : idx + 1 ≤ 65535) (h0 : bytes[idx]? = some b0) (h1 : bytes[idx + 1]? = some b1)
    (hne : ¬ (b0 = 255 ∧ b1 = 255)) :
    MarkerLengthCodec.markerLoop bytes idx 0 MARKER = some false := by
  have e0 : uint16 (idx + uint16 0) = idx := by unfold uint16; omega
  have e1 : uint16 (idx + uint16 (0 + 1)) = idx + 1 := by unfold uint16; omega
  by_cases hb : b0 = 255
  · have hb1 : b1 ≠ 255 := fun h => hne ⟨hb, h⟩
    simp [MARKER, MarkerLengthCodec.markerLoop, index, e0, e1, h0, h1, hb, hb1]
  · simp [MARKER, MarkerLengthCodec.markerLoop, index, e0, h0, hb]

theorem MarkerLengthCodec.markerLoop_mismatch_first (bytes : List Nat) (idx b0 : Nat)
    (hidx : idx ≤ 65535) (h0 : bytes[idx]? = some b0) (hne : b0 ≠ 255) :
    MarkerLengthCodec.markerLoop bytes idx 0 MARKER = some false := by
  have e0 : uint16 (idx + uint16 0) = idx := by unfold uint16; omega
  simp [MARKER, MarkerLengthCodec.markerLoop, index, e0, h0, hne]

theorem MarkerLengthCodec.markerLoop_truncated (bytes : List Nat) (idx : Nat)
    (hidx : idx + 1 ≤ 65535) (h0 : bytes[idx]? = some 255) (h1 : bytes[idx + 1]? = none) :
    MarkerLengthCodec.markerLoop bytes idx 0 MARKER = none := by
  have e0 : uint16 (idx + uint16 0) = idx := by unfold uint16; omega
  have e1 : uint16 (idx + uint16 (0 + 1)) = idx + 1 := by unfold uint16; omega
  simp [MARKER, MarkerLengthCodec.markerLoop, index, e0, e1, h0, h1]

theorem MarkerLengthCodec.decodeLoop_markerFrame (fuel : Nat) (pre p rest : List Nat)
    (acc : List (List Nat))
    (hlen : (pre ++ (MarkerLengthCodec.Encode p ++ rest)).length ≤ 65535) :
    MarkerLengthCodec.decodeLoop (fuel + 1) (pre ++ (MarkerLengthCodec.Encode p ++ rest))
        pre.length acc =
      MarkerLengthCodec.decodeLoop fuel (pre ++ (MarkerLengthCodec.Encode p ++ rest))
        (pre.length + (MarkerLengthCodec.Encode p).length) (acc ++ [p]) := by
  have hp : p.length ≤ 65535 := by
    simp only [MarkerLengthCodec.Encode, List.length_append] at hlen; omega
  rw [MarkerLengthCodec.Encode_eq p hp] at hlen ⊢
  have hl : (pre ++ ([255, 255, p.length % 256, p.length / 256] ++ p ++ rest)).length =
      pre.length + 4 + p.length + rest.length := by
    simp only [List.length_append, List.length_cons, List.length_nil]; omega
  rw [hl] at hlen
  have hm := MarkerLengthCodec.markerLoop_match
    (pre ++ ([255, 255, p.length % 256, p.length / 256] ++ p ++ rest)) pre.length
    (by omega) ((getElem?_after pre _ 0).trans rfl) ((getElem?_after pre _ 1).trans rfl)
  have hs1 : slice (pre ++ ([255, 255, p.length % 256, p.length / 256] ++ p ++ rest))
      (pre.length + 2) (pre.length + 4) = some [p.length % 256, p.length / 256] := by
    have := slice_middle pre [p.length % 256, p.length / 256] (p ++ rest) [255, 255]
    simpa [Nat.add_assoc] using this
  have hs2 : slice (pre ++ ([255, 255, p.length % 256, p.length / 256] ++ p ++ rest))
      (pre.length + 4) (pre.length + 4 + p.length) = some p :=
    slice_middle pre p rest [255, 255, p.length % 256, p.length / 256]
  have u0 : uint16 (pre ++ ([255, 255, p.length % 256, p.length / 256] ++ p ++ rest)).length =
      pre.length + 4 + p.length + rest.length := by rw [hl]; exact uint16_of_le _ hlen
  have u1 : uint16 (pre.length + 2) = pre.length + 2 := uint16_of_le _ (by omega)
  have u2 : uint16 (pre.length + 2 + 2) = pre.length + 4 := uint16_of_le _ (by omega)
  have u3 : uint16 (pre.length + 4 + p.length) = pre.length + 4 + p.length :=
    uint16_of_le _ (by omega)
  rw [MarkerLengthCodec.decodeLoop, MarkerLengthCodec.decodeIter, u0, if_pos (by omega), hm]
  simp only [u1, u2, hs1, littleEndianUint16_bytes _ hp, u3, hs2]
  rw [show pre.length + ([255, 255, p.length % 256, p.length / 256] ++ p).length =
    pre.length + 4 + p.length by
      simp only [List.length_append, List.length_cons, List.length_nil]; omega]

theorem MarkerLengthCodec.decodeLoop_markerFrames (ps : List (List Nat)) (fuel : Nat)
    (rest : List Nat) :
    ∀ (pre : List Nat) (acc : List (List Nat)),
      (pre ++ (frames MarkerLengthCodec.Encode ps ++ rest)).length ≤ 65535 →
      MarkerLengthCodec.decodeLoop (ps.length + fuel)
          (pre ++ (frames MarkerLengthCodec.Encode ps ++ rest)) pre.length acc =
        MarkerLengthCodec.decodeLoop fuel
          (pre ++ (frames MarkerLengthCodec.Encode ps ++ rest))
          (pre.length + (frames MarkerLengthCodec.Encode ps).length) (acc ++ ps) := by
  induction ps with
  | nil => intro pre acc _; simp [frames]
  | cons p ps ih =>
    intro pre acc hlen
    have e1 : pre ++ (frames MarkerLengthCodec.Encode (p :: ps) ++ rest) =
        pre ++ (MarkerLengthCodec.Encode p ++ (frames MarkerLengthCodec.Encode ps ++ rest)) := by
      simp [frames]
    have e2 : pre ++ (MarkerLengthCodec.Encode p ++
        (frames MarkerLengthCodec.Encode ps ++ rest)) =
        (pre ++ MarkerLengthCodec.Encode p) ++ (frames MarkerLengthCodec.Encode ps ++ rest) := by
      simp
    rw [e1] at hlen ⊢
    rw [show (p :: ps).length + fuel = (ps.length + fuel) + 1 by simp; omega,
      MarkerLengthCodec.decodeLoop_markerFrame _ _ _ _ _ hlen]
    rw [e2] at hlen ⊢
    rw [← List.length_append, ih (pre ++ MarkerLengthCodec.Encode p) (acc ++ [p]) hlen]
    simp [frames, Nat.add_assoc]

theorem MarkerLengthCodec.length_frames (ps : List (List Nat)) :
    4 * ps.length ≤ (frames MarkerLengthCodec.Encode ps).length := by
  induction ps with
  | nil => simp [frames]
  | cons p ps ih =>
    simp only [frames, MarkerLengthCodec.Encode, MARKER, littleEndianPutUint16,
      List.length_append, List.length_cons, List.length_nil]
    omega

theorem MarkerLengthCodec.Decode_frames_then (ps : List (List Nat)) (rest : List Nat)
    (hlen : (frames MarkerLengthCodec.Encode ps ++ rest).length ≤ 65535) :
    MarkerLengthCodec.Decode (frames MarkerLengthCodec.Encode ps ++ rest) =
      MarkerLengthCodec.decodeLoop (65536 - ps.length + 1)
        (frames MarkerLengthCodec.Encode ps ++ rest)
        (frames MarkerLengthCodec.Encode ps).length ps := by
  have h4 := MarkerLengthCodec.length_frames ps
  have hl : ps.length ≤ 65535 := by
    simp only [List.length_append] at hlen; omega
  have h := MarkerLengthCodec.decodeLoop_markerFrames ps (65536 - ps.length + 1) rest [] []
    (by simpa using hlen)
  simp only [List.nil_append, List.length_nil, Nat.zero_add] at h
  unfold MarkerLengthCodec.Decode
  rw [show 65537 = ps.length + (65536 - ps.length + 1) by omega, h]

/-- Within the range of the 16-bit index, `MarkerLengthCodec.Decode` recovers
the packets of a concatenation of frames. -/
theorem MarkerLengthCodec.Decode_frames_of_le (ps : List (List Nat))
    (hlen : (frames MarkerLengthCodec.Encode ps).length ≤ 65535) :
    MarkerLengthCodec.Decode (frames MarkerLengthCodec.Encode ps) = Outcome.ret ps none := by
  have h := MarkerLengthCodec.Decode_frames_then ps [] (by simpa using hlen)
  simp only [List.append_nil] at h
  rw [h, MarkerLengthCodec.decodeLoop, MarkerLengthCodec.decodeIter, uint16_of_le _ hlen,
    if_neg (Nat.lt_irrefl _)]

theorem MarkerLengthCodec.Decode_frames_junk (ps : List (List Nat)) (b0 b1 : Nat)
    (tail : List Nat)
    (hlen : (frames MarkerLengthCodec.Encode ps ++ b0 :: b1 :: tail).length ≤ 65535)
    (hne : ¬ (b0 = 255 ∧ b1 = 255)) :
    MarkerLengthCodec.Decode (frames MarkerLengthCodec.Encode ps ++ b0 :: b1 :: tail) =
      Outcome.ret ps (some "Malformed packet") := by
  have hl : (frames MarkerLengthCodec.Encode ps ++ b0 :: b1 :: tail).length =
      (frames MarkerLengthCodec.Encode ps).length + 2 + tail.length := by
    simp only [List.length_append, List.length_cons]; omega
  have hm := MarkerLengthCodec.markerLoop_mismatch
    (frames MarkerLengthCodec.Encode ps ++ b0 :: b1 :: tail)
    (frames MarkerLengthCodec.Encode ps).length b0 b1 (by omega)
    ((getElem?_after _ _ 0).trans (by simp)) ((getElem?_after _ _ 1).trans (by simp)) hne
  rw [MarkerLengthCodec.Decode_frames_then ps _ hlen, MarkerLengthCodec.decodeLoop,
    MarkerLengthCodec.decodeIter, uint16_of_le _ hlen, if_pos (by omega), hm]

theorem MarkerLengthCodec.Decode_frames_byte (ps : List (List Nat)) (b0 : Nat)
    (hlen : (frames MarkerLengthCodec.Encode ps ++ [b0]).length ≤ 65535) (hne : b0 ≠ 255) :
    MarkerLengthCodec.Decode (frames MarkerLengthCodec.Encode ps ++ [b0]) =
      Outcome.ret ps (some "Malformed packet") := by
  have hl : (frames MarkerLengthCodec.Encode ps ++ [b0]).length =
      (frames MarkerLengthCodec.Encode ps).length + 1 := by
    simp only [List.length_append, List.length_cons, List.length_nil]
  have hm := MarkerLengthCodec.markerLoop_mismatch_first
    (frames MarkerLengthCodec.Encode ps ++ [b0])
    (frames MarkerLengthCodec.Encode ps).length b0 (by omega)
    ((getElem?_after _ _ 0).trans (by simp)) hne
  rw [MarkerLengthCodec.Decode_frames_then ps _ hlen, MarkerLengthCodec.decodeLoop,
    MarkerLengthCodec.decodeIter, uint16_of_le _ hlen, if_pos (by omega), hm]

/-- After any frames, a tail that is not empty, does not start with the marker
and is not the single byte `ff` makes `Decode` return the error together with
the packets of the frames. -/
theorem MarkerLengthCodec.Decode_frames_tail (ps : List (List Nat)) (junk : List Nat)
    (hlen : (frames MarkerLengthCodec.Encode ps ++ junk).length ≤ 65535)
    (hne : junk ≠ []) (hmark : junk.take 2 ≠ MARKER) (hcut : junk ≠ [0xff]) :
    MarkerLengthCodec.Decode (frames MarkerLengthCodec.Encode ps ++ junk) =
      Outcome.ret ps (some "Malformed packet") := by
  match junk, hne, hmark, hcut, hlen with
  | [b0], _, _, hcut, hlen =>
    exact MarkerLengthCodec.Decode_frames_byte ps b0 hlen (fun h => hcut (by rw [h]))
  | b0 :: b1 :: tail, _, hmark, _, hlen =>
    refine MarkerLengthCodec.Decode_frames_junk ps b0 b1 tail hlen ?_
    rintro ⟨h0, h1⟩
    exact hmark (by simp [MARKER, h0, h1])

/-- After any frames, the single byte `ff` (a marker cut short) makes `Decode`
panic: the comparison of the second marker byte indexes past the buffer. -/
theorem MarkerLengthCodec.Decode_frames_cut_marker (ps : List (List Nat))
    (hlen : (frames MarkerLengthCodec.Encode ps ++ [0xff]).length ≤ 65535) :
    MarkerLengthCodec.Decode (frames MarkerLengthCodec.Encode ps ++ [0xff]) =
      Outcome.panic := by
  have hl : (frames MarkerLengthCodec.Encode ps ++ [0xff]).length =
      (frames MarkerLengthCodec.Encode ps).length + 1 := by
    simp only [List.length_append, List.length_cons, List.length_nil]
  have hm := MarkerLengthCodec.markerLoop_truncated
    (frames MarkerLengthCodec.Encode ps ++ [0xff])
    (frames MarkerLengthCodec.Encode ps).length (by omega)
    ((getElem?_after _ _ 0).trans (by simp)) ((getElem?_after _ _ 1).trans (by simp))
  rw [MarkerLengthCodec.Decode_frames_then ps _ hlen, MarkerLengthCodec.decodeLoop,
    MarkerLengthCodec.decodeIter, uint16_of_le _ hlen, if_pos (by omega), hm]

/-- A buffer of at least two bytes that does not start with the marker is
rejected with no packets, unless its length is a multiple of 65536. -/
theorem MarkerLengthCodec.Decode_malformed_of_ne (b0 b1 : Nat) (tail : List Nat)
    (hlen : uint16 (b0 :: b1 :: tail).length ≠ 0) (hne : ¬ (b0 = 255 ∧ b1 = 255)) :
    MarkerLengthCodec.Decode (b0 :: b1 :: tail) = Outcome.ret [] (some "Malformed packet") := by
  have hm := MarkerLengthCodec.markerLoop_mismatch (b0 :: b1 :: tail) 0 b0 b1 (by decide)
    (by simp) (by simp) hne
  rw [MarkerLengthCodec.Decode, MarkerLengthCodec.decodeLoop, MarkerLengthCodec.decodeIter,
    if_pos (by omega), hm]

/-- Within the range of the 16-bit index (payloads of at most 65531 bytes),
`MarkerLengthCodec` round-trips a packet. -/
theorem MarkerLengthCodec.Decode_Encode_of_le (p : List Nat) (hp : p.length ≤ 65531) :
    MarkerLengthCodec.Decode (MarkerLengthCodec.Encode p) = Outcome.ret [p] none := by
  have h := MarkerLengthCodec.Decode_frames_of_le [p]
    (by simp only [frames, List.append_nil, MarkerLengthCodec.Encode, MARKER,
          littleEndianPutUint16, List.length_append, List.length_cons, List.length_nil]
        omega)
  simpa [frames] using h

theorem MarkerLengthCodec.Encode_length (p : List Nat) :
    (MarkerLengthCodec.Encode p).length = p.length + 4 := by
  simp only [MarkerLengthCodec.Encode, MARKER, littleEndianPutUint16, List.length_append,
    List.length_cons, List.length_nil]
  omega

/-- A buffer whose length is a multiple of 65536 is never looked at: the loop
bound `uint16(len(bytes))` is 0. -/
theorem MarkerLengthCodec.Decode_of_wrapped_length (bytes : List Nat)
    (h : uint16 bytes.length = 0) :
    MarkerLengthCodec.Decode bytes = Outcome.ret [] none := by
  rw [MarkerLengthCodec.Decode, MarkerLengthCodec.decodeLoop, MarkerLengthCodec.decodeIter, h,
    if_neg (Nat.lt_irrefl 0)]

/-- The frame of a packet of 65535 bytes makes `Decode` panic: after the
header `idx` is 4, `idx+length` wraps to 3, and `bytes[4:3]` is out of
bounds. -/
theorem MarkerLengthCodec.Decode_Encode_65535 (p : List Nat) (hp : p.length = 65535) :
    MarkerLengthCodec.Decode (MarkerLengthCodec.Encode p) = Outcome.panic := by
  rw [MarkerLengthCodec.Encode_eq p (by omega), hp]
  have hlen : ([255, 255, 65535 % 256, 65535 / 256] ++ p).length = 65539 := by
    simp only [List.length_append, List.length_cons, List.length_nil, hp]
  have hm := MarkerLengthCodec.markerLoop_match
    ([255, 255, 65535 % 256, 65535 / 256] ++ p) 0 (by decide) (by simp) (by simp)
  have hs1 : slice ([255, 255, 65535 % 256, 65535 / 256] ++ p) 2 4 = some [255, 255] := by
    simp [slice]
  have hs2 : slice ([255, 255, 65535 % 256, 65535 / 256] ++ p) 4 3 = none := by
    simp [slice]
  have hle : littleEndianUint16 [255, 255] = some 65535 := by decide
  rw [MarkerLengthCodec.Decode, MarkerLengthCodec.decodeLoop, MarkerLengthCodec.decodeIter,
    hlen, if_pos (by decide), hm]
  simp only [show uint16 (0 + 2) = 2 by decide, show uint16 (2 + 2) = 4 by decide, hs1, hle,
    show uint16 (4 + 65535) = 3 by decide, hs2]

/-! ## The loop budget of `MarkerLengthCodec.Decode` -/

/-- Whether a pass of the loop goes on, and with which index, does not depend
on the packets collected so far; a pass that does not go on ends with a return
or a panic. -/
theorem MarkerLengthCodec.decodeIter_cases (bytes : List Nat) (idx : Nat) :
    (∃ i d, i < 65536 ∧
        ∀ acc, MarkerLengthCodec.decodeIter bytes idx acc = LoopStep.next i (acc ++ [d])) ∨
      (∀ acc, ∃ o, o ≠ Outcome.timeout ∧
        MarkerLengthCodec.decodeIter bytes idx acc = LoopStep.done o) := by
  unfold MarkerLengthCodec.decodeIter
  by_cases hlt : idx < uint16 bytes.length
  · rcases hm : MarkerLengthCodec.markerLoop bytes idx 0 MARKER with _ | _ | _
    · right; intro acc; simp [hlt, hm]
    · right; intro acc; simp [hlt, hm]
    · rcases hs1 : slice bytes (uint16 (idx + 2)) (uint16 (uint16 (idx + 2) + 2)) with _ | lb
      · right; intro acc; simp [hlt, hm, hs1]
      · rcases hle : littleEndianUint16 lb with _ | len
        · right; intro acc; simp [hlt, hm, hs1, hle]
        · rcases hs2 : slice bytes (uint16 (uint16 (idx + 2) + 2))
            (uint16 (uint16 (uint16 (idx + 2) + 2) + len)) with _ | data
          · right; intro acc; simp [hlt, hm, hs1, hle, hs2]
          · left
            refine ⟨uint16 (uint16 (uint16 (idx + 2) + 2) + len), data, ?_, fun acc => ?_⟩
            · unfold uint16; omega
            · simp [hlt, hm, hs1, hle, hs2]
  · right; intro acc
    simp [hlt]

theorem MarkerLengthCodec.decodeLoop_timeout_iff (bytes : List Nat) :
    ∀ (fuel idx : Nat) (acc : List (List Nat)),
      MarkerLengthCodec.decodeLoop fuel bytes idx acc = Outcome.timeout ↔
        (MarkerLengthCodec.idxAfter bytes fuel idx).isSome = true := by
  intro fuel
  induction fuel with
  | zero => intro idx acc; simp [MarkerLengthCodec.decodeLoop, MarkerLengthCodec.idxAfter]
  | succ n ih =>
    intro idx acc
    rcases MarkerLengthCodec.decodeIter_cases bytes idx with ⟨i, d, _, h⟩ | h
    · rw [MarkerLengthCodec.decodeLoop, MarkerLengthCodec.idxAfter, MarkerLengthCodec.nextIdx,
        h acc, h []]
      exact ih i _
    · obtain ⟨o, ho, e⟩ := h acc
      obtain ⟨o1, _, e1⟩ := h []
      rw [MarkerLengthCodec.decodeLoop, MarkerLengthCodec.idxAfter, MarkerLengthCodec.nextIdx,
        e, e1]
      simp [ho]

theorem MarkerLengthCodec.nextIdx_lt (bytes : List Nat) (idx i : Nat)
    (h : MarkerLengthCodec.nextIdx bytes idx = some i) : i < 65536 := by
  rcases MarkerLengthCodec.decodeIter_cases bytes idx with ⟨j, d, hj, hn⟩ | hd
  · rw [MarkerLengthCodec.nextIdx, hn []] at h
    simp only [Option.some.injEq] at h
    omega
  · obtain ⟨o, _, e⟩ := hd []
    rw [MarkerLengthCodec.nextIdx, e] at h
    simp at h

theorem MarkerLengthCodec.idxAfter_add (bytes : List Nat) :
    ∀ (a b idx : Nat), MarkerLengthCodec.idxAfter bytes (a + b) idx =
      (MarkerLengthCodec.idxAfter bytes a idx).bind (MarkerLengthCodec.idxAfter bytes b) := by
  intro a
  induction a with
  | zero => intro b idx; simp [MarkerLengthCodec.idxAfter]
  | succ n ih =>
    intro b idx
    rw [show n + 1 + b = (n + b) + 1 by omega, MarkerLengthCodec.idxAfter,
      MarkerLengthCodec.idxAfter]
    cases MarkerLengthCodec.nextIdx bytes idx with
    | none => simp
    | some i => exact ih b i

theorem MarkerLengthCodec.idxAfter_lt (bytes : List Nat) :
    ∀ (k idx j : Nat), idx < 65536 → MarkerLengthCodec.idxAfter bytes k idx = some j →
      j < 65536 := by
  intro k
  induction k with
  | zero =>
    intro idx j hi h
    simp only [MarkerLengthCodec.idxAfter, Option.some.injEq] at h
    omega
  | succ n ih =>
    intro idx j hi h
    rw [MarkerLengthCodec.idxAfter] at h
    cases hn : MarkerLengthCodec.nextIdx bytes idx with
    | none => rw [hn] at h; simp at h
    | some i =>
      rw [hn] at h
      exact ih i j (MarkerLengthCodec.nextIdx_lt bytes idx i hn) h

theorem MarkerLengthCodec.idxAfter_isSome_of_le (bytes : List Nat) (a n idx : Nat)
    (hle : a ≤ n) (h : (MarkerLengthCodec.idxAfter bytes n idx).isSome = true) :
    (MarkerLengthCodec.idxAfter bytes a idx).isSome = true := by
  rw [show n = a + (n - a) by omega, MarkerLengthCodec.idxAfter_add] at h
  cases ha : MarkerLengthCodec.idxAfter bytes a idx with
  | none => rw [ha] at h; simp at h
  | some j => rfl

theorem MarkerLengthCodec.idxAfter_cycle (bytes : List Nat) (s d : Nat)
    (h : MarkerLengthCodec.idxAfter bytes d s = some s) :
    ∀ m, MarkerLengthCodec.idxAfter bytes (m * d) s = some s := by
  intro m
  induction m with
  | zero => simp [MarkerLengthCodec.idxAfter]
  | succ n ih =>
    rw [Nat.succ_mul, MarkerLengthCodec.idxAfter_add, ih]
    exact h

theorem MarkerLengthCodec.idxAfter_of_repeat (bytes : List Nat) (x y s : Nat) (hxy : x < y)
    (hx : MarkerLengthCodec.idxAfter bytes x 0 = some s)
    (hy : MarkerLengthCodec.idxAfter bytes y 0 = some s) :
    ∀ n, (MarkerLengthCodec.idxAfter bytes n 0).isSome = true := by
  intro n
  have hd : MarkerLengthCodec.idxAfter bytes (y - x) s = some s := by
    have h := MarkerLengthCodec.idxAfter_add bytes x (y - x) 0
    rw [show x + (y - x) = y by omega, hy, hx] at h
    exact h.symm
  have hc := MarkerLengthCodec.idxAfter_cycle bytes s (y - x) hd n
  have hn : MarkerLengthCodec.idxAfter bytes (x + n * (y - x)) 0 = some s := by
    rw [MarkerLengthCodec.idxAfter_add, hx]
    exact hc
  have hle : n ≤ x + n * (y - x) := by
    have : n * 1 ≤ n * (y - x) := Nat.mul_le_mul_left n (by omega)
    omega
  exact MarkerLengthCodec.idxAfter_isSome_of_le bytes n _ 0 hle (by rw [hn]; rfl)

/-- A run of the loop that goes on for 65536 passes goes on for ever: among
the 65537 indices it has met two are equal. -/
theorem MarkerLengthCodec.idxAfter_forever (bytes : List Nat)
    (h : (MarkerLengthCodec.idxAfter bytes 65536 0).isSome = true) :
    ∀ n, (MarkerLengthCodec.idxAfter bytes n 0).isSome = true := by
  have hsome : ∀ k, k ≤ 65536 →
      ∃ j, MarkerLengthCodec.idxAfter bytes k 0 = some j ∧ j < 65536 := by
    intro k hk
    have hk1 := MarkerLengthCodec.idxAfter_isSome_of_le bytes k 65536 0 hk h
    obtain ⟨j, hj⟩ := Option.isSome_iff_exists.mp hk1
    exact ⟨j, hj, MarkerLengthCodec.idxAfter_lt bytes k 0 j (by decide) hj⟩
  have hmaps : ∀ k ∈ Finset.range 65537,
      (MarkerLengthCodec.idxAfter bytes k 0).getD 0 ∈ Finset.range 65536 := by
    intro k hk
    obtain ⟨j, hj, hlt⟩ := hsome k (by rw [Finset.mem_range] at hk; omega)
    rw [hj, Finset.mem_range]
    exact hlt
  have hcard : (Finset.range 65536).card < (Finset.range 65537).card := by
    rw [Finset.card_range, Finset.card_range]; decide
  obtain ⟨x, hx, y, hy, hne, hf⟩ :=
    Finset.exists_ne_map_eq_of_card_lt_of_maps_to hcard hmaps
  rw [Finset.mem_range] at hx hy
  obtain ⟨jx, hjx, _⟩ := hsome x (by omega)
  obtain ⟨jy, hjy, _⟩ := hsome y (by omega)
  rw [hjx, hjy] at hf
  simp only [Option.getD_some] at hf
  subst hf
  rcases Nat.lt_or_gt_of_ne hne with hlt | hgt
  · exact MarkerLengthCodec.idxAfter_of_repeat bytes x y jx hlt hjx hjy
  · exact MarkerLengthCodec.idxAfter_of_repeat bytes y x jx hgt hjy hjx

/-- When the loop budget of `MarkerLengthCodec.Decode` runs out, no budget is
enough: the loop of the Go method does not finish. -/
theorem MarkerLengthCodec.Decode_timeout_forever (bytes : List Nat)
    (h : MarkerLengthCodec.Decode bytes = Outcome.timeout) :
    ∀ fuel, MarkerLengthCodec.decodeLoop fuel bytes 0 [] = Outcome.timeout := by
  intro fuel
  rw [MarkerLengthCodec.Decode, MarkerLengthCodec.decodeLoop_timeout_iff] at h
  rw [MarkerLengthCodec.decodeLoop_timeout_iff]
  exact MarkerLengthCodec.idxAfter_forever bytes
    (MarkerLengthCodec.idxAfter_isSome_of_le bytes 65536 65537 0 (by decide) h) fuel

/-! ## The reader loop -/

theorem socketStream.readIter_read_error (c : socketStream) (h : Nat) (data : List Nat)
    (e : String) (hc : c.conn = some h) :
    (c.readIter (ReadEvent.read data (some e))).2 = LoopStatus.exited ∧
      (c.readIter (ReadEvent.read data (some e))).1.conn = some h := by
  unfold socketStream.readIter
  simp only [hc]
  split_ifs <;> simp [socketStream.report, hc]

theorem socketStream.readIter_read_ok (c : socketStream) (h : Nat) (d : List Nat)
    (hc : c.conn = some h) :
    (c.readIter (ReadEvent.read d none)).2 ≠ LoopStatus.exited ∧
      (c.readIter (ReadEvent.read d none)).1.conn = some h := by
  unfold socketStream.readIter
  simp only [hc]
  split
  · constructor <;> simp
  · constructor <;> simp
  · rename_i pkts derr _
    cases derr <;> cases hh : c.handler <;> simp [socketStream.report, hh]

/-- Whenever the loop of `read` ends because `conn.Read` returned an error,
the connection is still held: along a run of successful reads followed by a
failing one, `conn` keeps its value. -/
theorem socketStream.readLoop_read_error_keeps_conn (h : Nat) :
    ∀ (evs : List ReadEvent) (c : socketStream) (data : List Nat) (e : String),
      c.conn = some h →
      (∀ ev ∈ evs, ∃ d, ev = ReadEvent.read d none) →
      (c.readLoop (evs ++ [ReadEvent.read data (some e)])).2 = LoopStatus.exited →
      (c.readLoop (evs ++ [ReadEvent.read data (some e)])).1.IsConnected = true := by
  intro evs
  induction evs with
  | nil =>
    intro c data e hc _ _
    have := socketStream.readIter_read_error c h data e hc
    simp only [List.nil_append, socketStream.readLoop]
    rcases hr : c.readIter (ReadEvent.read data (some e)) with ⟨c1, st⟩
    rw [hr] at this
    obtain ⟨h1, h2⟩ := this
    simp only at h1 h2
    subst h1
    simp [socketStream.IsConnected, h2]
  | cons ev evs ih =>
    intro c data e hc hev hex
    obtain ⟨d, rfl⟩ := hev ev (List.mem_cons_self _ _)
    have hev1 : ∀ ev ∈ evs, ∃ d, ev = ReadEvent.read d none :=
      fun x hx => hev x (List.mem_cons_of_mem _ hx)
    have hok := socketStream.readIter_read_ok c h d hc
    simp only [List.cons_append, socketStream.readLoop] at hex ⊢
    rcases hr : c.readIter (ReadEvent.read d none) with ⟨c1, st⟩
    rw [hr] at hex hok
    obtain ⟨hne, hc1⟩ := hok
    simp only at hne hc1
    cases st with
    | running => exact ih c1 data e hc1 hev1 hex
    | exited => exact absurd rfl hne
    | panicked => simp at hex
    | hung => simp at hex

/-! ## Properties of the codecs and of the reader -/

/-- C1. Round trip of `LengthFieldCodec`: for every packet `p` of at most
4194303 bytes, `Decode(Encode(p))` returns the one-element list `[p]` and a
`nil` error. -/
theorem LengthFieldCodec.roundtrip (p : List Nat) (hp : p.length ≤ 4194303) :
    LengthFieldCodec.Decode (LengthFieldCodec.Encode p) = Outcome.ret [p] none := by
  have h := LengthFieldCodec.Decode_frames [p] (by simpa using hp)
  simpa [frames] using h

/-- C1 at the packet `07 08 09`. -/
theorem LengthFieldCodec.roundtrip_witness :
    [7, 8, 9].length ≤ 4194303 ∧
      LengthFieldCodec.Decode (LengthFieldCodec.Encode [7, 8, 9]) =
        Outcome.ret [[7, 8, 9]] none :=
  ⟨by decide, LengthFieldCodec.roundtrip [7, 8, 9] (by decide)⟩

/-- C3. Concatenation for `LengthFieldCodec`: for every list of packets, each
of at most 4194303 bytes, `Decode` of the concatenated frames returns the
packets in the same order and a `nil` error. -/
theorem LengthFieldCodec.concatenation (ps : List (List Nat))
    (hps : ∀ p ∈ ps, p.length ≤ 4194303) :
    LengthFieldCodec.Decode (frames LengthFieldCodec.Encode ps) = Outcome.ret ps none :=
  LengthFieldCodec.Decode_frames ps hps

/-- C3 at the packets `01 02`, the empty packet and `03`. -/
theorem LengthFieldCodec.concatenation_witness :
    (∀ p ∈ [[1, 2], [], [3]], p.length ≤ 4194303) ∧
      LengthFieldCodec.Decode (frames LengthFieldCodec.Encode [[1, 2], [], [3]]) =
        Outcome.ret [[1, 2], [], [3]] none :=
  ⟨by decide, LengthFieldCodec.concatenation [[1, 2], [], [3]] (by decide)⟩

/-- C5, as stated, fails at `L = 4194304`: the header is 3 bytes long although
`L` is above 4194303, and the length it carries is 0. -/
theorem getHeaderFromLen_width_counterexample :
    ¬ ((getHeaderFromLen 4194304).length = 3 ↔ 16384 ≤ 4194304 ∧ 4194304 ≤ 4194303) ∧
      getHeaderFromLen 4194304 = [128, 0, 0] ∧
      getLenFromHeader (getHeaderFromLen 4194304) = some 0 := by
  decide

/-- C5, amended. The header of `getHeaderFromLen(L)` is 1 byte long iff
`L <= 63`, 2 bytes long iff `64 <= L <= 16383`, and 3 bytes long iff
`16384 <= L` (there is no upper limit); for `L <= 4194303` its length field
(`8 * width - 2` bits) can hold `L` and no narrower header can. -/
theorem getHeaderFromLen_width (L : Nat) :
    ((getHeaderFromLen L).length = 1 ↔ L ≤ 63) ∧
    ((getHeaderFromLen L).length = 2 ↔ 64 ≤ L ∧ L ≤ 16383) ∧
    ((getHeaderFromLen L).length = 3 ↔ 16384 ≤ L) ∧
    (L ≤ 4194303 →
      L < 2 ^ (8 * (getHeaderFromLen L).length - 2) ∧
      ∀ w, 1 ≤ w → L < 2 ^ (8 * w - 2) → (getHeaderFromLen L).length ≤ w) := by
  rw [getHeaderFromLen_length]
  refine ⟨?_, ?_, ?_, ?_⟩
  · split_ifs <;> omega
  · split_ifs <;> omega
  · split_ifs <;> omega
  · intro hL
    constructor
    · split_ifs <;> simp <;> omega
    · intro w hw hlt
      rcases w with _ | _ | _ | w
      · omega
      · simp at hlt; split_ifs <;> omega
      · simp at hlt; split_ifs <;> omega
      · split_ifs <;> omega

/-- C5, amended, at `L = 4194303`: a 3-byte header whose 22-bit field holds `L`. -/
theorem getHeaderFromLen_width_witness :
    4194303 ≤ 4194303 ∧ (getHeaderFromLen 4194303).length = 3 ∧
      4194303 < 2 ^ (8 * (getHeaderFromLen 4194303).length - 2) :=
  ⟨by decide, (getHeaderFromLen_width 4194303).2.2.1.mpr (by decide),
    ((getHeaderFromLen_width 4194303).2.2.2 (by decide)).1⟩

/-- C6. Length-header round trip: for every `L` with `0 <= L <= 4194303`,
`getLenFromHeader(getHeaderFromLen(L)) == L`. -/
theorem getLenFromHeader_getHeaderFromLen (L : Nat) (h : L ≤ 4194303) :
    getLenFromHeader (getHeaderFromLen L) = some L := by
  have := getLenFromHeader_header_append L h []
  simpa using this

/-- C6 at `L = 16384`. -/
theorem getLenFromHeader_getHeaderFromLen_witness :
    16384 ≤ 4194303 ∧ getLenFromHeader (getHeaderFromLen 16384) = some 16384 :=
  ⟨by decide, getLenFromHeader_getHeaderFromLen 16384 (by decide)⟩

/-- C10 at the buffer `40 05 01 02 03 04 00`: the top two bits of the first
byte are `01` and the length read from the two header bytes is 5, yet `Decode`
skips one byte only, so its first packet is `05 01 02 03 04` (the second header
byte and four payload bytes) and not the five bytes `01 02 03 04 00` that
follow the 2-byte header. -/
theorem LengthFieldCodec.Decode_noncanonical_header :
    (0x40 &&& 0xc0) >>> 6 = 1 ∧
      getLenFromHeader [0x40, 0x05, 1, 2, 3, 4, 0] = some 5 ∧
      slice [0x40, 0x05, 1, 2, 3, 4, 0] 2 (2 + 5) = some [1, 2, 3, 4, 0] ∧
      LengthFieldCodec.Decode [0x40, 0x05, 1, 2, 3, 4, 0] =
        Outcome.ret [[0x05, 1, 2, 3, 4], []] none := by
  decide

/-- C2 at a packet of 65532 bytes, and at one of 65535 bytes (the documented
maximum): the frame is 65536 bytes long, the loop bound `uint16(len(bytes))`
is 0 and `Decode` returns no packet at all; with 65535 bytes the index
arithmetic wraps and the slice expression `bytes[4:3]` panics. -/
theorem MarkerLengthCodec.roundtrip_fails_near_max :
    MarkerLengthCodec.Decode (MarkerLengthCodec.Encode (List.replicate 65532 0)) =
        Outcome.ret [] none ∧
      MarkerLengthCodec.Decode (MarkerLengthCodec.Encode (List.replicate 65535 0)) =
        Outcome.panic :=
  ⟨MarkerLengthCodec.Decode_of_wrapped_length _
      (by rw [MarkerLengthCodec.Encode_length, List.length_replicate]; rfl),
    MarkerLengthCodec.Decode_Encode_65535 _ (List.length_replicate _ _)⟩

/-- C4 at two packets of 32764 bytes each: the two frames make a buffer of
65536 bytes, the loop bound `uint16(len(bytes))` is 0, and `Decode` returns
an empty list in place of the two packets. -/
theorem MarkerLengthCodec.concatenation_fails_at_65536 :
    MarkerLengthCodec.Decode
        (frames MarkerLengthCodec.Encode
          [List.replicate 32764 1, List.replicate 32764 2]) =
      Outcome.ret [] none :=
  MarkerLengthCodec.Decode_of_wrapped_length _
    (by rw [frames, frames, frames, List.length_append, List.length_append,
          MarkerLengthCodec.Encode_length, MarkerLengthCodec.Encode_length,
          List.length_replicate, List.length_replicate, List.length_nil]
        rfl)

/-- C7 at a buffer of 65536 zero bytes: its first two bytes are not the
marker, yet `Decode` returns a `nil` error (and no packets), because the loop
bound `uint16(len(bytes))` is 0. -/
theorem MarkerLengthCodec.malformed_accepted_at_65536 :
    (0 :: 0 :: List.replicate 65534 0).length = 65536 ∧
      ¬ ((0 : Nat) = 0xff ∧ (0 : Nat) = 0xff) ∧
      MarkerLengthCodec.Decode (0 :: 0 :: List.replicate 65534 0) = Outcome.ret [] none :=
  ⟨by rw [List.length_cons, List.length_cons, List.length_replicate], by decide,
    MarkerLengthCodec.Decode_of_wrapped_length _
      (by rw [List.length_cons, List.length_cons, List.length_replicate]; rfl)⟩

/-- C8, as stated, fails on the buffer made of the frame of the packet `41`
followed by `00 00`: `Decode` returns the error together with the packet
already recovered, not with an empty list. It fails in a second way when the
frame is followed by the single byte `ff`, a marker cut short, which does not
start with the marker either: `Decode` panics and returns nothing. -/
theorem MarkerLengthCodec.mid_buffer_mismatch_counterexample :
    MarkerLengthCodec.Decode (frames MarkerLengthCodec.Encode [[0x41]] ++ [0, 0]) =
        Outcome.ret [[0x41]] (some "Malformed packet") ∧
      (¬ ∃ e, MarkerLengthCodec.Decode (frames MarkerLengthCodec.Encode [[0x41]] ++ [0, 0]) =
        Outcome.ret [] (some e)) ∧
      [0xff].take 2 ≠ MARKER ∧
      MarkerLengthCodec.Decode (frames MarkerLengthCodec.Encode [[0x41]] ++ [0xff]) =
        Outcome.panic := by
  have h : MarkerLengthCodec.Decode (frames MarkerLengthCodec.Encode [[0x41]] ++ [0, 0]) =
      Outcome.ret [[0x41]] (some "Malformed packet") := by decide
  refine ⟨h, ?_, by decide, by decide⟩
  rintro ⟨e, he⟩
  rw [h] at he
  simp at he

/-- C8, amended. For a buffer of at most 65535 bytes made of the frames of the
packets `ps` followed by a tail that is not empty, does not start with the
marker `ff ff` and is not the single byte `ff` (a marker cut short, on which
`Decode` panics), `MarkerLengthCodec.Decode` returns a non-`nil` error together
with the packets `ps` recovered from the earlier frames, in order. -/
theorem MarkerLengthCodec.mid_buffer_mismatch (ps : List (List Nat)) (junk : List Nat)
    (hlen : (frames MarkerLengthCodec.Encode ps ++ junk).length ≤ 65535)
    (hne : junk ≠ []) (hmark : junk.take 2 ≠ MARKER) (hcut : junk ≠ [0xff]) :
    MarkerLengthCodec.Decode (frames MarkerLengthCodec.Encode ps ++ junk) =
      Outcome.ret ps (some "Malformed packet") :=
  MarkerLengthCodec.Decode_frames_tail ps junk hlen hne hmark hcut

/-- C8, amended, at the frames of `01 02` and `03` followed by the single
byte `07`. -/
theorem MarkerLengthCodec.mid_buffer_mismatch_witness :
    (frames MarkerLengthCodec.Encode [[1, 2], [3]] ++ [7]).length ≤ 65535 ∧
      [7] ≠ [] ∧ [7].take 2 ≠ MARKER ∧ [7] ≠ [0xff] ∧
      MarkerLengthCodec.Decode (frames MarkerLengthCodec.Encode [[1, 2], [3]] ++ [7]) =
        Outcome.ret [[1, 2], [3]] (some "Malformed packet") :=
  ⟨by decide, by decide, by decide, by decide,
    MarkerLengthCodec.mid_buffer_mismatch [[1, 2], [3]] [7] (by decide) (by decide)
      (by decide) (by decide)⟩

/-- C9 at a stream holding a connection whose first `conn.Read` returns
`(0, EOF)`: `read` reports the end of stream and returns, and the connection
is still held, so `IsConnected()` is `true`. -/
theorem socketStream.read_eof_still_connected :
    (socketStream.read
        (socketStream.mk (some 1) true HeaderCodec.markerLength 0 [] [] 0)
        [ReadEvent.read [] (some "EOF")]) =
      (socketStream.mk (some 1) true HeaderCodec.markerLength 0
          [NewStreamErr STREAM_EOF "Connection EOF: EOF"] [] 0, LoopStatus.exited) ∧
    (socketStream.read
        (socketStream.mk (some 1) true HeaderCodec.markerLength 0 [] [] 0)
        [ReadEvent.read [] (some "EOF")]).1.IsConnected = true := by
  decide

end Stream
